import Mathlib

/-!
Verification of the SOLPRISM × AgentShield integration (`src/solprism.ts`).

The subsystem under study is the trace-construction, canonicalization,
commitment and verification subsystem:

* `hashTrace` (solprism.ts lines 107-110) canonicalizes a reasoning trace
  with `JSON.stringify(trace, Object.keys(trace).sort())` and hashes the
  canonical string with SHA-256, returning lowercase hex;
* `createTradeReasoningTrace` (lines 120-239) and `createFirewallTrace`
  (lines 246-301) are pure trace builders;
* `SolprismShield` (lines 338-408) is the commitment store with `commit`,
  `verify`, `getCommitments`.

Modelling conventions: JavaScript numbers that the program only ever holds
as integers (timestamps, confidences, amounts, counts) are modelled as
`Int`; wall-clock reads (`Date.now()`, `new Date().toISOString()`) are
passed in as explicit parameters; `console.log` output is ignored.  A
runtime `ReasoningTrace` value is a JavaScript object, modelled by the
`Json` type below, which keeps the key *insertion order* of objects — the
order `JSON.stringify` would enumerate keys in absent a replacer.
-/

-- ─── SHA-256 (model of Node `crypto.createHash("sha256")`, FIPS 180-4) ───

/-- 2^32, the modulus of SHA-256 word arithmetic. -/
def wordMod : Nat := 4294967296

/-- Right-rotate a 32-bit word (represented as a `Nat` below 2^32). -/
def rotr32 (n x : Nat) : Nat :=
  ((x >>> n) ||| ((x <<< (32 - n)) % wordMod)) % wordMod

/-- Bitwise complement within 32 bits. -/
def not32 (x : Nat) : Nat := x ^^^ 4294967295

/-- SHA-256 Ch function. -/
def shaCh (x y z : Nat) : Nat := (x &&& y) ^^^ (not32 x &&& z)

/-- SHA-256 Maj function. -/
def shaMaj (x y z : Nat) : Nat := (x &&& y) ^^^ (x &&& z) ^^^ (y &&& z)

/-- SHA-256 big sigma 0. -/
def bigSigma0 (x : Nat) : Nat := rotr32 2 x ^^^ rotr32 13 x ^^^ rotr32 22 x

/-- SHA-256 big sigma 1. -/
def bigSigma1 (x : Nat) : Nat := rotr32 6 x ^^^ rotr32 11 x ^^^ rotr32 25 x

/-- SHA-256 small sigma 0. -/
def smallSigma0 (x : Nat) : Nat := rotr32 7 x ^^^ rotr32 18 x ^^^ (x >>> 3)

/-- SHA-256 small sigma 1. -/
def smallSigma1 (x : Nat) : Nat := rotr32 17 x ^^^ rotr32 19 x ^^^ (x >>> 10)

/-- The 64 SHA-256 round constants (FIPS 180-4 section 4.2.2, written in
decimal). -/
def shaK : List Nat :=
  [1116352408, 1899447441, 3049323471, 3921009573, 961987163,
   1508970993, 2453635748, 2870763221, 3624381080, 310598401,
   607225278, 1426881987, 1925078388, 2162078206, 2614888103,
   3248222580, 3835390401, 4022224774, 264347078, 604807628,
   770255983, 1249150122, 1555081692, 1996064986, 2554220882,
   2821834349, 2952996808, 3210313671, 3336571891, 3584528711,
   113926993, 338241895, 666307205, 773529912, 1294757372,
   1396182291, 1695183700, 1986661051, 2177026350, 2456956037,
   2730485921, 2820302411, 3259730800, 3345764771, 3516065817,
   3600352804, 4094571909, 275423344, 430227734, 506948616,
   659060556, 883997877, 958139571, 1322822218, 1537002063,
   1747873779, 1955562222, 2024104815, 2227730452, 2361852424,
   2428436474, 2756734187, 3204031479, 3329325298]

/-- The SHA-256 initial hash value (FIPS 180-4 section 5.3.3, decimal). -/
def shaH0 : List Nat :=
  [1779033703, 3144134277, 1013904242, 2773480762, 1359893119,
   2600822924, 528734635, 1541459225]

/-- Big-endian bytes (most significant first) of `v`, `n` bytes wide. -/
def beBytes (n v : Nat) : List Nat :=
  (List.range n).map (fun i => (v >>> (8 * (n - 1 - i))) &&& 255)

/-- SHA-256 padding: append 0x80, zeros to 56 mod 64, then the 64-bit
big-endian bit length. -/
def shaPad (msg : List Nat) : List Nat :=
  let l := msg.length
  let zeros := (119 - (l % 64)) % 64
  msg ++ [0x80] ++ List.replicate zeros 0 ++ beBytes 8 (8 * l)

/-- Split a byte list into chunks of `n` bytes (`n` assumed positive). -/
def chunksOf (n : Nat) (l : List Nat) : List (List Nat) :=
  if l.isEmpty ∨ n = 0 then []
  else l.take n :: chunksOf n (l.drop n)
termination_by l.length
decreasing_by
  simp only [List.length_drop]
  cases l with
  | nil => simp_all
  | cons a as => cases n with
    | zero => simp_all
    | succ m => simp; omega

/-- Fold big-endian bytes into a word. -/
def bytesToWord (bs : List Nat) : Nat := bs.foldl (fun acc b => acc * 256 + b) 0

/-- Extend the 16-word message schedule by `n` more words. -/
def extendSchedule : Nat → List Nat → List Nat
  | 0, w => w
  | n + 1, w =>
    let t := w.length
    let fresh := (smallSigma1 (w.getD (t - 2) 0) + w.getD (t - 7) 0 +
                  smallSigma0 (w.getD (t - 15) 0) + w.getD (t - 16) 0) % wordMod
    extendSchedule n (w ++ [fresh])

/-- One SHA-256 compression round; the state is the eight working words. -/
def shaRound (st : List Nat) (kw : Nat × Nat) : List Nat :=
  match st with
  | [a, b, c, d, e, f, g, h] =>
    let t1 := (h + bigSigma1 e + shaCh e f g + kw.1 + kw.2) % wordMod
    let t2 := (bigSigma0 a + shaMaj a b c) % wordMod
    [(t1 + t2) % wordMod, a, b, c, (d + t1) % wordMod, e, f, g]
  | other => other

/-- Compress one 64-byte block into the running hash value. -/
def shaCompress (hs : List Nat) (block : List Nat) : List Nat :=
  let w := extendSchedule 48 ((chunksOf 4 block).map bytesToWord)
  let st := (shaK.zip w).foldl shaRound hs
  (hs.zip st).map (fun p => (p.1 + p.2) % wordMod)

/-- SHA-256 digest of a byte list, as eight 32-bit words. -/
def sha256Words (msg : List Nat) : List Nat :=
  ((chunksOf 64 (shaPad msg)).foldl shaCompress shaH0)

/-- Lowercase hex digits. -/
def hexChars : List Char := "0123456789abcdef".data

/-- A word as eight lowercase hex characters. -/
def wordToHex (x : Nat) : String :=
  String.mk ((List.range 8).map (fun i => hexChars.getD ((x >>> (4 * (7 - i))) &&& 15) '0'))

/-- UTF-8 encoding of one character (the encoding `hash.update(string)`
applies in Node by default). -/
def utf8EncodeChar (c : Char) : List Nat :=
  let n := c.toNat
  if n < 0x80 then [n]
  else if n < 0x800 then [0xc0 ||| (n >>> 6), 0x80 ||| (n &&& 0x3f)]
  else if n < 0x10000 then
    [0xe0 ||| (n >>> 12), 0x80 ||| ((n >>> 6) &&& 0x3f), 0x80 ||| (n &&& 0x3f)]
  else
    [0xf0 ||| (n >>> 18), 0x80 ||| ((n >>> 12) &&& 0x3f),
     0x80 ||| ((n >>> 6) &&& 0x3f), 0x80 ||| (n &&& 0x3f)]

/-- UTF-8 encoding of a string. -/
def utf8Encode (s : String) : List Nat := (s.data.map utf8EncodeChar).flatten

/-- `crypto.createHash("sha256").update(s).digest("hex")`: the SHA-256 digest
of the UTF-8 bytes of `s`, as a 64-character lowercase hex string. -/
def sha256hex (s : String) : String :=
  String.join ((sha256Words (utf8Encode s)).map wordToHex)

-- ─── JavaScript values: the runtime shape of a ReasoningTrace ────────────

/-- A JSON-serializable JavaScript value.  Objects keep their fields in key
insertion order, exactly as a JavaScript object enumerates them; a
well-formed object never has two fields with the same key. -/
inductive Json where
  | str (s : String)
  | num (n : Int)
  | bool (b : Bool)
  | arr (elems : List Json)
  | obj (fields : List (String × Json))

/-- JavaScript property access `o[k]` on an object's field list (keys are
unique in a JavaScript object, so first match is the field). -/
def lookupJ (k : String) : List (String × Json) → Option Json
  | [] => none
  | (k', v) :: fs => if k = k' then some v else lookupJ k fs

/-- The keys of an object's field list, in insertion order (`Object.keys`). -/
def keysOf (fs : List (String × Json)) : List String := fs.map Prod.fst

/-- Boolean list membership for strings. -/
def memB (k : String) : List String → Bool
  | [] => false
  | x :: xs => (k == x) || memB k xs

/-- Boolean key-distinctness. -/
def nodupB : List String → Bool
  | [] => true
  | k :: ks => (!memB k ks) && nodupB ks

/-- Drop later duplicates, keeping first occurrences (the deduplication
ECMA-262 applies to a `JSON.stringify` replacer array). -/
def dedupKeys (l : List String) : List String :=
  match l with
  | [] => []
  | k :: ks => k :: dedupKeys (ks.filter (fun x => x ≠ k))
termination_by l.length
decreasing_by
  simp only [List.length_cons]
  exact Nat.lt_succ_of_le (List.length_filter_le _ _)

-- ─── `Object.keys(trace).sort()` ─────────────────────────────────────────

/-- Lexicographic comparison of character lists by code unit, the default
`Array.prototype.sort` string comparison (all keys here are ASCII, where
UTF-16 code units and code points agree). -/
def charListLe : List Char → List Char → Bool
  | [], _ => true
  | _ :: _, [] => false
  | a :: as, b :: bs =>
    if a.toNat < b.toNat then true
    else if b.toNat < a.toNat then false
    else charListLe as bs

/-- String comparison for key sorting. -/
def strLeB (a b : String) : Bool := charListLe a.data b.data

/-- Insert a key into a sorted key list. -/
def insertKey (k : String) : List String → List String
  | [] => [k]
  | x :: xs => if strLeB k x then k :: x :: xs else x :: insertKey k xs

/-- Sort a key list (models `Object.keys(trace).sort()`; the algorithm JS
engines use is irrelevant because the produced order on distinct keys is the
same). -/
def sortKeys : List String → List String
  | [] => []
  | k :: ks => insertKey k (sortKeys ks)

/-- `Object.keys` of a JavaScript value: its own keys for an object, nothing
for a primitive or an array of the shapes a trace contains. -/
def topKeys : Json → List String
  | .obj fs => keysOf fs
  | _ => []

-- ─── `JSON.stringify(trace, K)` with an array replacer ───────────────────

/-- Auxiliary bound for the well-founded recursion below: a value found by
property lookup is structurally smaller than the field list. -/
theorem lookupJ_sizeOf_lt {k : String} {v : Json} :
    ∀ {fs : List (String × Json)}, lookupJ k fs = some v → sizeOf v < sizeOf fs := by
  intro fs
  induction fs with
  | nil => intro h; simp [lookupJ] at h
  | cons p fs ih =>
    intro h
    obtain ⟨k', w⟩ := p
    simp only [lookupJ] at h
    by_cases hk : k = k'
    · simp [hk] at h
      subst h
      simp
      omega
    · simp [hk] at h
      have := ih h
      simp
      omega

mutual
/-- The effect of `JSON.stringify`'s *array* replacer (a `PropertyList` in
ECMA-262 terms): at EVERY object level, exactly the keys listed in `K` are
serialized, in the order of `K` (deduplicated), each looked up in the object;
array elements are not filtered.  `applyReplacer` computes the value tree
that is left to serialize; `hashTrace` passes the sorted top-level keys of
the trace for `K`, which is why nested fields — whose keys are not top-level
keys — are dropped. -/
def applyReplacer (K : List String) (j : Json) : Json :=
  match j with
  | .str s => .str s
  | .num n => .num n
  | .bool b => .bool b
  | .arr es => .arr (applyReplacerList K es)
  | .obj fs => .obj (applyReplacerFields K (dedupKeys K) fs)
termination_by (sizeOf j, 0)

/-- `applyReplacer` on each element of an array. -/
def applyReplacerList (K : List String) (es : List Json) : List Json :=
  match es with
  | [] => []
  | e :: es' => applyReplacer K e :: applyReplacerList K es'
termination_by (sizeOf es, 0)

/-- One object's surviving fields: walk the replacer key list `ks`, keep each
key present in the object, recurse into its value. -/
def applyReplacerFields (K : List String) (ks : List String) (fs : List (String × Json)) : List (String × Json) :=
  match ks with
  | [] => []
  | k :: ks' =>
    match h : lookupJ k fs with
    | some v => (k, applyReplacer K v) :: applyReplacerFields K ks' fs
    | none => applyReplacerFields K ks' fs
termination_by (sizeOf fs, ks.length)
decreasing_by
  · have hlt := lookupJ_sizeOf_lt h
    apply Prod.Lex.left
    omega
  · apply Prod.Lex.right
    simp
  · apply Prod.Lex.right
    simp
end

/-- JSON string quoting and escaping as `JSON.stringify` performs it
(backslash escapes for quote, backslash and the common control characters;
other control characters as `\u00xx`; everything else verbatim). -/
def escapeChar (c : Char) : String :=
  if c = '"' then "\\\""
  else if c = '\\' then "\\\\"
  else if c = '\x08' then "\\b"
  else if c = '\x0c' then "\\f"
  else if c = '\n' then "\\n"
  else if c = '\r' then "\\r"
  else if c = '\t' then "\\t"
  else if c.toNat < 32 then
    "\\u00" ++ String.mk [hexChars.getD (c.toNat >>> 4) '0', hexChars.getD (c.toNat &&& 15) '0']
  else String.singleton c

/-- A JSON string literal. -/
def quoteStr (s : String) : String :=
  "\"" ++ String.join (s.data.map escapeChar) ++ "\""

mutual
/-- Plain `JSON.stringify` of a replacer-filtered value: objects emit their
(remaining) fields in stored order, arrays preserve element order. -/
def stringify (j : Json) : String :=
  match j with
  | .str s => quoteStr s
  | .num n => toString n
  | .bool b => if b then "true" else "false"
  | .arr es => "[" ++ String.intercalate "," (stringifyList es) ++ "]"
  | .obj fs => "\x7b" ++ String.intercalate "," (stringifyFields fs) ++ "\x7d"
termination_by sizeOf j

/-- Serialized array elements, in order. -/
def stringifyList (es : List Json) : List String :=
  match es with
  | [] => []
  | e :: es' => stringify e :: stringifyList es'
termination_by sizeOf es

/-- Serialized object entries, in order. -/
def stringifyFields (fs : List (String × Json)) : List String :=
  match fs with
  | [] => []
  | (k, v) :: fs' => (quoteStr k ++ ":" ++ stringify v) :: stringifyFields fs'
termination_by sizeOf fs
end

/-- The canonical encoding `hashTrace` computes:
`JSON.stringify(trace, Object.keys(trace).sort())`. -/
def canonicalize (trace : Json) : String :=
  stringify (applyReplacer (sortKeys (topKeys trace)) trace)

/-- solprism.ts lines 107-110: deterministically hash a reasoning trace
(SHA-256 over the canonical encoding, lowercase hex). -/
def hashTrace (trace : Json) : String :=
  sha256hex (canonicalize trace)

-- ─── Typed data model (solprism.ts lines 24-99) ──────────────────────────

/-- One entry of `inputs.dataSources`. -/
structure DataSource where
  name : String
  type : String
  queriedAt : String
  summary : String
deriving DecidableEq

/-- The `action` field of a ReasoningTrace. -/
structure ActionInfo where
  type : String
  description : String
  transactionSignature : Option String
deriving DecidableEq

/-- The `inputs` field of a ReasoningTrace. -/
structure InputsInfo where
  dataSources : List DataSource
  context : String
deriving DecidableEq

/-- One entry of `analysis.alternativesConsidered`. -/
structure AlternativeConsidered where
  action : String
  reasonRejected : String
deriving DecidableEq

/-- The `analysis` field of a ReasoningTrace. -/
structure AnalysisInfo where
  observations : List String
  logic : String
  alternativesConsidered : List AlternativeConsidered
deriving DecidableEq

/-- The `decision` field of a ReasoningTrace. -/
structure DecisionInfo where
  actionChosen : String
  confidence : Int
  riskAssessment : String
  expectedOutcome : String
deriving DecidableEq

/-- A scalar value of `metadata.custom` (`string | number | boolean`). -/
inductive CVal where
  | cStr (s : String)
  | cNum (n : Int)
  | cBool (b : Bool)
deriving DecidableEq

/-- The optional `metadata` field of a ReasoningTrace. -/
structure TraceMetadata where
  model : Option String
  sessionId : Option String
  executionTimeMs : Option Int
  custom : Option (List (String × CVal))
deriving DecidableEq

/-- solprism.ts lines 24-62: the canonical evidence record. -/
structure ReasoningTrace where
  version : String
  agent : String
  timestamp : Int
  action : ActionInfo
  inputs : InputsInfo
  analysis : AnalysisInfo
  decision : DecisionInfo
  metadata : Option TraceMetadata
deriving DecidableEq

/-- solprism.ts lines 72-77: one prediction-gate stage verdict. -/
structure PredictionStage where
  name : String
  passed : Bool
  confidence : Int
  reason : String
deriving DecidableEq

/-- `riskLevel ∈ "safe" | "suspicious" | "dangerous"`. -/
inductive RiskLevel where
  | safe
  | suspicious
  | dangerous
deriving DecidableEq

/-- The literal string of a risk level. -/
def RiskLevel.str : RiskLevel → String
  | .safe => "safe"
  | .suspicious => "suspicious"
  | .dangerous => "dangerous"

/-- `riskLevel.toUpperCase()`. -/
def RiskLevel.upper : RiskLevel → String
  | .safe => "SAFE"
  | .suspicious => "SUSPICIOUS"
  | .dangerous => "DANGEROUS"

/-- solprism.ts lines 80-85: scam check result. -/
structure ScamCheckResult where
  tokenMint : String
  isScam : Bool
  checks : List String
  riskLevel : RiskLevel
deriving DecidableEq

/-- `action ∈ "buy" | "sell" | "hold"`. -/
inductive TradeAction where
  | buy
  | sell
  | hold
deriving DecidableEq

/-- The literal string of a trade action. -/
def TradeAction.str : TradeAction → String
  | .buy => "buy"
  | .sell => "sell"
  | .hold => "hold"

/-- `action.toUpperCase()`. -/
def TradeAction.upper : TradeAction → String
  | .buy => "BUY"
  | .sell => "SELL"
  | .hold => "HOLD"

/-- The optional `cyclicSignal` of a TradeDecision. -/
structure CyclicSignal where
  alignment : Int
  window : String
deriving DecidableEq

/-- solprism.ts lines 88-99: trade decision input. -/
structure TradeDecision where
  tokenMint : String
  action : TradeAction
  amount : Int
  predictionStages : List PredictionStage
  scamCheck : Option ScamCheckResult
  cyclicSignal : Option CyclicSignal
  confidence : Int
deriving DecidableEq

-- ─── The runtime (JavaScript object) view of a typed trace ───────────────

/-- A `metadata.custom` scalar as a JSON value. -/
def CVal.toJson : CVal → Json
  | .cStr s => .str s
  | .cNum n => .num n
  | .cBool b => .bool b

/-- Fields of an optional entry: absent fields are simply not present on the
object (the builders never write `undefined`). -/
def optField (k : String) : Option Json → List (String × Json)
  | some v => [(k, v)]
  | none => []

/-- The JavaScript object a `ReasoningTrace` value is at runtime, with keys
in the insertion order the interface declaration and the builders use. -/
def ReasoningTrace.toJson (t : ReasoningTrace) : Json :=
  .obj ([("version", .str t.version),
         ("agent", .str t.agent),
         ("timestamp", .num t.timestamp),
         ("action", .obj ([("type", .str t.action.type),
                           ("description", .str t.action.description)] ++
                          optField "transactionSignature" (t.action.transactionSignature.map .str))),
         ("inputs", .obj [("dataSources", .arr (t.inputs.dataSources.map (fun d =>
                            .obj [("name", .str d.name), ("type", .str d.type),
                                  ("queriedAt", .str d.queriedAt), ("summary", .str d.summary)]))),
                          ("context", .str t.inputs.context)]),
         ("analysis", .obj [("observations", .arr (t.analysis.observations.map .str)),
                            ("logic", .str t.analysis.logic),
                            ("alternativesConsidered", .arr (t.analysis.alternativesConsidered.map (fun a =>
                              .obj [("action", .str a.action), ("reasonRejected", .str a.reasonRejected)])))]),
         ("decision", .obj [("actionChosen", .str t.decision.actionChosen),
                            ("confidence", .num t.decision.confidence),
                            ("riskAssessment", .str t.decision.riskAssessment),
                            ("expectedOutcome", .str t.decision.expectedOutcome)])] ++
        optField "metadata" (t.metadata.map (fun m =>
          .obj (optField "model" (m.model.map .str) ++
                optField "sessionId" (m.sessionId.map .str) ++
                optField "executionTimeMs" (m.executionTimeMs.map .num) ++
                optField "custom" (m.custom.map (fun c =>
                  .obj (c.map (fun p => (p.1, p.2.toJson)))))))))

-- ─── Trade trace builder (solprism.ts lines 120-239) ─────────────────────

/-- Line 121: `decision.predictionStages.every((s) => s.passed)`. -/
def allStagesPassed (d : TradeDecision) : Bool :=
  d.predictionStages.all (fun s => s.passed)

/-- Line 122: `!decision.scamCheck || !decision.scamCheck.isScam`. -/
def scamSafe (d : TradeDecision) : Bool :=
  match d.scamCheck with
  | none => true
  | some sc => !sc.isScam

/-- Line 123: `allStagesPassed && scamSafe`. -/
def tradeApproved (d : TradeDecision) : Bool :=
  allStagesPassed d && scamSafe d

/-- Line 130: the observation line of one prediction stage. -/
def stageObservation (s : PredictionStage) : String :=
  s.name ++ ": " ++ (if s.passed then "✅ PASS" else "❌ FAIL") ++
  " (" ++ toString s.confidence ++ "% confidence) — " ++ s.reason

/-- `SOLPRISM_SCHEMA_VERSION`. -/
def SOLPRISM_SCHEMA_VERSION : String := "1.0.0"

/-- solprism.ts lines 120-239, `createTradeReasoningTrace`.  `now` stands for
`Date.now()` and `nowISO` for `new Date().toISOString()` (the three
`toISOString` call sites are within the same call and modelled as one
instant). -/
def createTradeReasoningTrace (decision : TradeDecision) (now : Int) (nowISO : String) : ReasoningTrace :=
  let approved := tradeApproved decision
  let failedStages := decision.predictionStages.filter (fun s => !s.passed)
  { version := SOLPRISM_SCHEMA_VERSION
    agent := "AgentShield"
    timestamp := now
    action :=
      { type := if approved then "trade" else "rejection"
        description :=
          if approved then
            "APPROVED: " ++ decision.action.str ++ " " ++ toString decision.amount ++
            " of " ++ decision.tokenMint.take 8 ++ "..."
          else
            "REJECTED: " ++ decision.action.str ++ " blocked by safety gate"
        transactionSignature := none }
    inputs :=
      { dataSources :=
          [{ name := "Multi-Stage Prediction Gate"
             type := "internal"
             queriedAt := nowISO
             summary := toString (decision.predictionStages.filter (fun s => s.passed)).length ++
                        "/" ++ toString decision.predictionStages.length ++ " stages passed" }] ++
          (match decision.scamCheck with
           | some sc =>
             [{ name := "Scam & Liquidity Defense"
                type := "internal"
                queriedAt := nowISO
                summary := "Risk level: " ++ sc.riskLevel.str }]
           | none => []) ++
          (match decision.cyclicSignal with
           | some cy =>
             [{ name := "Cyclic Signal Layer"
                type := "internal"
                queriedAt := nowISO
                summary := toString cy.alignment ++ "% alignment in " ++ cy.window }]
           | none => [])
        context := "AgentShield multi-stage safety gate evaluation" }
    analysis :=
      { observations :=
          ["Token: " ++ decision.tokenMint.take 8 ++ "...",
           "Action: " ++ decision.action.upper,
           "Amount: " ++ toString decision.amount] ++
          decision.predictionStages.map stageObservation ++
          (match decision.scamCheck with
           | some sc =>
             ["Scam check: " ++ sc.riskLevel.upper ++ " — " ++ String.intercalate ", " sc.checks]
           | none => []) ++
          (match decision.cyclicSignal with
           | some cy =>
             ["Cyclic signal: " ++ toString cy.alignment ++ "% alignment in " ++ cy.window ++ " window"]
           | none => [])
        logic :=
          if approved then
            "All " ++ toString decision.predictionStages.length ++ " prediction stages passed. " ++
            (if scamSafe decision then "Scam check clean. " else "") ++
            "Confidence: " ++ toString decision.confidence ++ "%. Trade approved."
          else
            "Trade blocked by safety gate. " ++
            (if decision.predictionStages.any (fun s => !s.passed) then
              "Failed stages: " ++
              String.intercalate ", " ((decision.predictionStages.filter (fun s => !s.passed)).map (fun s => s.name)) ++
              ". "
             else "") ++
            (if !scamSafe decision then
              "Scam check: " ++ ((decision.scamCheck.map (fun sc => sc.riskLevel.str)).getD "") ++ ". "
             else "") ++
            "No override allowed."
        alternativesConsidered :=
          if approved then
            [{ action := "Reject trade"
               reasonRejected := "All prediction stages passed and scam check is clean" },
             { action := "Wait for more confirmations"
               reasonRejected := "Confidence at " ++ toString decision.confidence ++ "%, all " ++
                                 toString decision.predictionStages.length ++ " stages confirmed" }]
          else
            [{ action := "Execute " ++ decision.action.str ++ " anyway"
               reasonRejected :=
                 if failedStages.length > 0 then
                   toString failedStages.length ++ " prediction stage(s) failed: " ++
                   String.intercalate ", " (failedStages.map (fun s => s.name))
                 else "Scam check flagged this token" }] }
    decision :=
      { actionChosen :=
          if approved then decision.action.str ++ " " ++ toString decision.amount
          else "REJECT — trade blocked"
        confidence := decision.confidence
        riskAssessment :=
          if approved then (if decision.confidence ≥ 80 then "low" else "moderate") else "high"
        expectedOutcome :=
          if approved then
            "Execute " ++ decision.action.str ++ " with " ++ toString decision.confidence ++ "% confidence"
          else "Trade rejected, funds protected" }
    metadata :=
      some { model := none
             sessionId := none
             executionTimeMs := none
             custom := some
               [("stagesPassed", .cNum (decision.predictionStages.filter (fun s => s.passed)).length),
                ("totalStages", .cNum decision.predictionStages.length),
                ("scamRisk", .cStr (match decision.scamCheck with
                                    | some sc => sc.riskLevel.str
                                    | none => "unchecked")),
                ("approved", .cBool approved)] } }

-- ─── Firewall trace builder (solprism.ts lines 246-301) ──────────────────

/-- solprism.ts lines 246-254: the firewall collaborator's verdict. -/
structure FirewallParams where
  transactionType : String
  simulated : Bool
  simulationPassed : Bool
  spendLimitOk : Bool
  slippageOk : Bool
  programAllowed : Bool
  approved : Bool
  reason : String
deriving DecidableEq

/-- solprism.ts lines 246-301, `createFirewallTrace`. -/
def createFirewallTrace (params : FirewallParams) (now : Int) (nowISO : String) : ReasoningTrace :=
  { version := SOLPRISM_SCHEMA_VERSION
    agent := "AgentShield"
    timestamp := now
    action :=
      { type := if params.approved then "firewall_allow" else "firewall_deny"
        description :=
          if params.approved then "Firewall ALLOW: " ++ params.transactionType
          else "Firewall DENY: " ++ params.transactionType ++ " — " ++ params.reason
        transactionSignature := none }
    inputs :=
      { dataSources :=
          [{ name := "Transaction Firewall"
             type := "internal"
             queriedAt := nowISO
             summary := params.reason }]
        context := "AgentShield transaction firewall evaluation" }
    analysis :=
      { observations :=
          ["Transaction type: " ++ params.transactionType,
           "Simulation: " ++ (if params.simulated then
                                (if params.simulationPassed then "✅ PASS" else "❌ FAIL")
                              else "⏭️ SKIPPED"),
           "Spend limit: " ++ (if params.spendLimitOk then "✅ OK" else "❌ EXCEEDED"),
           "Slippage: " ++ (if params.slippageOk then "✅ OK" else "❌ EXCEEDED"),
           "Program allowlist: " ++ (if params.programAllowed then "✅ ALLOWED" else "❌ BLOCKED")]
        logic := params.reason
        alternativesConsidered :=
          if params.approved then
            [{ action := "Block transaction", reasonRejected := "All firewall checks passed" }]
          else
            [{ action := "Allow transaction", reasonRejected := params.reason }] }
    decision :=
      { actionChosen := if params.approved then "ALLOW" else "DENY"
        confidence := if params.approved then 90 else 95
        riskAssessment := if params.approved then "low" else "high"
        expectedOutcome :=
          if params.approved then "Transaction executed safely"
          else "Transaction blocked, funds protected" }
    metadata := none }

-- ─── Commitment manager (solprism.ts lines 338-408), value-level model ───

/-- solprism.ts lines 65-69: result of a commitment.  The trace field holds
the runtime (JavaScript object) view of the committed trace. -/
structure CommitmentResult where
  hash : String
  trace : Json
  timestamp : Int

/-- solprism.ts lines 338-344: the commitment store.  `commit` is the only
state-changing operation, so the class is modelled by explicit state
passing: each method returns its result together with the shield value
after the call. -/
structure SolprismShield where
  agentName : String
  commitments : List CommitmentResult

/-- Lines 342-344: `new SolprismShield(config)`; the `||` fallback also
replaces an empty (falsy) `agentName`. -/
def SolprismShield.make (agentName? : Option String) : SolprismShield :=
  { agentName :=
      match agentName? with
      | some n => if n = "" then "AgentShield" else n
      | none => "AgentShield"
    commitments := [] }

/-- Lines 352-370: hash the trace, append the new `CommitmentResult` to the
history, return it (the `console.log` observability record is ignored). -/
def SolprismShield.commit (sh : SolprismShield) (trace : Json) (now : Int) :
    CommitmentResult × SolprismShield :=
  let result : CommitmentResult := { hash := hashTrace trace, trace := trace, timestamp := now }
  (result, { sh with commitments := sh.commitments ++ [result] })

/-- Lines 375-384: recompute the hash of the given trace and compare with
the supplied hash; no state is read or written. -/
def SolprismShield.verify (_sh : SolprismShield) (hash : String) (trace : Json) : Bool :=
  hashTrace trace == hash

/-- Lines 389-391: the full history (`[...this.commitments]` — as a value,
the copy equals the internal list; aliasing is studied in the heap model
below). -/
def SolprismShield.getCommitments (sh : SolprismShield) : List CommitmentResult :=
  sh.commitments

/-- Fold a list of `(trace, Date.now())` pairs through `commit`, returning
the final shield and every returned `CommitmentResult` in call order. -/
def commitAll (sh : SolprismShield) : List (Json × Int) → SolprismShield × List CommitmentResult
  | [] => (sh, [])
  | (t, now) :: rest =>
    let step := sh.commit t now
    let tail := commitAll step.2 rest
    (tail.1, step.1 :: tail.2)

-- ─── Commitment manager, reference-level (heap) model ────────────────────

/-!
`getCommitments` returns `[...this.commitments]`: a fresh array whose
elements are the *same* `CommitmentResult` objects the store holds.  To
settle what a caller can and cannot change through that return value, the
relevant JavaScript reference structure is modelled explicitly: a heap of
`CommitmentResult` objects and a heap of arrays of object references; the
shield holds a reference to its internal array (`this.commitments`), and
each operation is a function on the heap.
-/

/-- A `CommitmentResult` object on the heap (its fields are mutable in
JavaScript; a field assignment is modelled by `writeObj`). -/
structure CommitmentEntry where
  hash : String
  trace : Json
  timestamp : Int

/-- The heap: `CommitmentResult` objects and arrays of references to them,
each addressed by allocation index. -/
structure JSHeap where
  objs : List CommitmentEntry
  arrs : List (List Nat)

/-- A `SolprismShield` instance: its name and the reference to its private
`commitments` array. -/
structure ShieldRef where
  agentName : String
  commitments : Nat

/-- Read an array from the heap. -/
def readArr (h : JSHeap) (r : Nat) : List Nat := h.arrs.getD r []

/-- Replace an array's contents (models any caller-side mutation of the
array object `r`: element assignment, `push`, `pop`, reordering…). -/
def writeArr (h : JSHeap) (r : Nat) (l : List Nat) : JSHeap :=
  { h with arrs := h.arrs.set r l }

/-- Read a `CommitmentResult` object from the heap. -/
def readObj (h : JSHeap) (r : Nat) : CommitmentEntry :=
  h.objs.getD r { hash := "", trace := .obj [], timestamp := 0 }

/-- Overwrite a `CommitmentResult` object (models a caller assigning to the
fields of the object it reached through a reference). -/
def writeObj (h : JSHeap) (r : Nat) (e : CommitmentEntry) : JSHeap :=
  { h with objs := h.objs.set r e }

/-- `new SolprismShield(...)`: allocate the empty internal array. -/
def newShieldRef (h : JSHeap) (agentName? : Option String) : JSHeap × ShieldRef :=
  ({ h with arrs := h.arrs ++ [[]] },
   { agentName :=
       match agentName? with
       | some n => if n = "" then "AgentShield" else n
       | none => "AgentShield"
     commitments := h.arrs.length })

/-- `commit` in the heap model: allocate the result object, push its
reference onto the internal array, return the reference. -/
def commitRef (h : JSHeap) (sh : ShieldRef) (trace : Json) (now : Int) : JSHeap × Nat :=
  let entry : CommitmentEntry := { hash := hashTrace trace, trace := trace, timestamp := now }
  let objRef := h.objs.length
  let h1 := { h with objs := h.objs ++ [entry] }
  (writeArr h1 sh.commitments (readArr h1 sh.commitments ++ [objRef]), objRef)

/-- `getCommitments` in the heap model: `[...this.commitments]` allocates a
NEW array holding the SAME object references. -/
def getCommitmentsRef (h : JSHeap) (sh : ShieldRef) : JSHeap × Nat :=
  ({ h with arrs := h.arrs ++ [readArr h sh.commitments] }, h.arrs.length)

/-- The store's observable history: the `CommitmentResult` objects its
internal array currently references, dereferenced. -/
def historyView (h : JSHeap) (sh : ShieldRef) : List CommitmentEntry :=
  (readArr h sh.commitments).map (readObj h)

-- ─── The spec's approval predicate ───────────────────────────────────────

/-- The claim's description of approval: every prediction stage passed, and
the scam check is absent or found no scam. -/
def approvedClaim (d : TradeDecision) : Prop :=
  (∀ s ∈ d.predictionStages, s.passed = true) ∧
  (d.scamCheck = none ∨ d.scamCheck.map ScamCheckResult.isScam = some false)

instance (d : TradeDecision) : Decidable (approvedClaim d) := by
  unfold approvedClaim
  exact inferInstance

-- ─── Bridge lemmas between the code's booleans and the spec's predicates ─

theorem tradeApproved_iff (d : TradeDecision) : tradeApproved d = true ↔ approvedClaim d := by
  unfold tradeApproved allStagesPassed scamSafe approvedClaim
  cases h : d.scamCheck with
  | none => simp [List.all_eq_true]
  | some sc => simp [List.all_eq_true]

theorem tradeApproved_false_iff (d : TradeDecision) :
    tradeApproved d = false ↔ ¬ approvedClaim d := by
  rw [← tradeApproved_iff]
  cases tradeApproved d <;> simp

-- ─── C1, C8, C10: the commitment store, value level ──────────────────────

/-- C1: every `CommitmentResult` returned by `commit` satisfies
`hash == hashTrace(trace)` — the hash field is the SHA-256 digest of the
canonical encoding of the committed trace — and consequently
`verify(r.hash, r.trace)` returns `true`. -/
theorem commit_hash_invariant (sh : SolprismShield) (t : Json) (now : Int) :
    (sh.commit t now).1.hash = sha256hex (canonicalize t) ∧
    (sh.commit t now).1.hash = hashTrace ((sh.commit t now).1.trace) ∧
    ((sh.commit t now).2).verify (sh.commit t now).1.hash ((sh.commit t now).1.trace) = true := by
  refine ⟨rfl, rfl, ?_⟩
  show (hashTrace t == hashTrace t) = true
  exact beq_self_eq_true _

theorem commitAll_commitments (sh : SolprismShield) (ps : List (Json × Int)) :
    (commitAll sh ps).1.commitments = sh.commitments ++ (commitAll sh ps).2 ∧
    (commitAll sh ps).2.length = ps.length := by
  induction ps generalizing sh with
  | nil => simp [commitAll]
  | cons p rest ih =>
    obtain ⟨t, now⟩ := p
    have h := ih (sh.commit t now).2
    simp only [commitAll]
    refine ⟨?_, by simp [h.2]⟩
    rw [h.1]
    simp [SolprismShield.commit]

/-- C8: a newly constructed shield has an empty history, and after any
sequence of `n` commits, `getCommitments()` is exactly the list of the `n`
returned `CommitmentResult`s in call order (in particular of length `n`). -/
theorem getCommitments_append_only (agentName? : Option String) (ps : List (Json × Int)) :
    (SolprismShield.make agentName?).getCommitments = [] ∧
    ((commitAll (SolprismShield.make agentName?) ps).1).getCommitments =
      (commitAll (SolprismShield.make agentName?) ps).2 ∧
    (commitAll (SolprismShield.make agentName?) ps).2.length = ps.length := by
  have h := commitAll_commitments (SolprismShield.make agentName?) ps
  refine ⟨rfl, ?_, h.2⟩
  show (commitAll (SolprismShield.make agentName?) ps).1.commitments = _
  rw [h.1]
  simp [SolprismShield.make]

/-- C10: `commit` stores the committed trace unchanged: the returned
`CommitmentResult`'s trace field is exactly the argument, and the entry
appended to the history is that same result. -/
theorem commit_stores_trace_unchanged (sh : SolprismShield) (t : Json) (now : Int) :
    (sh.commit t now).1.trace = t ∧
    ((sh.commit t now).2).commitments = sh.commitments ++ [(sh.commit t now).1] :=
  ⟨rfl, rfl⟩

-- ─── C4, C5, C6: the trade trace builder ─────────────────────────────────

/-- C4: `createTradeReasoningTrace` computes approval as "every stage
passed and (no scam check or not a scam)", and sets `action.type` to
`"trade"` exactly when approved and `"rejection"` otherwise. -/
theorem tradeTrace_action_type (d : TradeDecision) (now : Int) (nowISO : String) :
    ((createTradeReasoningTrace d now nowISO).action.type = "trade" ↔ approvedClaim d) ∧
    ((createTradeReasoningTrace d now nowISO).action.type = "rejection" ↔ ¬ approvedClaim d) := by
  have hproj : (createTradeReasoningTrace d now nowISO).action.type
      = if tradeApproved d then "trade" else "rejection" := rfl
  rw [hproj]
  cases htb : tradeApproved d with
  | true => simp [tradeApproved_iff d |>.mp htb]
  | false =>
    have := (tradeApproved_false_iff d).mp htb
    simp_all

/-- The three-passed-stages scenario of the spec (stages at confidences 85,
78, 82, a clean scam check, overall confidence 82). -/
def exampleDecision : TradeDecision :=
  { tokenMint := "So11111111111111111111111111111111111111112"
    action := .buy
    amount := 1
    predictionStages :=
      [{ name := "10min-shortterm", passed := true, confidence := 85, reason := "Uptrend confirmed" },
       { name := "5min-validation", passed := true, confidence := 78, reason := "Secondary signal holds" },
       { name := "10min-final", passed := true, confidence := 82, reason := "Third window passed" }]
    scamCheck := some
      { tokenMint := "So11111111111111111111111111111111111111112"
        isScam := false
        checks := ["liquidity-ok", "holders-diverse", "age-valid"]
        riskLevel := .safe }
    cyclicSignal := none
    confidence := 82 }

/-- C5: `decision.riskAssessment` is `"low"` iff approved with confidence at
least 80, `"moderate"` iff approved with confidence below 80, `"high"` iff
not approved; in the spec's scenario (all stages passed, clean scam check,
confidence 82) the trace is a `"trade"` with risk `"low"`. -/
theorem tradeTrace_riskAssessment (d : TradeDecision) (now : Int) (nowISO : String) :
    ((createTradeReasoningTrace d now nowISO).decision.riskAssessment = "low" ↔
      approvedClaim d ∧ 80 ≤ d.confidence) ∧
    ((createTradeReasoningTrace d now nowISO).decision.riskAssessment = "moderate" ↔
      approvedClaim d ∧ d.confidence < 80) ∧
    ((createTradeReasoningTrace d now nowISO).decision.riskAssessment = "high" ↔
      ¬ approvedClaim d) ∧
    (createTradeReasoningTrace exampleDecision now nowISO).action.type = "trade" ∧
    (createTradeReasoningTrace exampleDecision now nowISO).decision.riskAssessment = "low" := by
  have hproj : (createTradeReasoningTrace d now nowISO).decision.riskAssessment
      = if tradeApproved d then (if d.confidence ≥ 80 then "low" else "moderate") else "high" := rfl
  refine ⟨?_, ?_, ?_, rfl, rfl⟩ <;> rw [hproj]
  · cases htb : tradeApproved d with
    | true =>
      have hap := tradeApproved_iff d |>.mp htb
      by_cases hc : (80 : Int) ≤ d.confidence <;> simp [hap, hc, ge_iff_le]
    | false =>
      have hna := (tradeApproved_false_iff d).mp htb
      simp [hna]
  · cases htb : tradeApproved d with
    | true =>
      have hap := tradeApproved_iff d |>.mp htb
      by_cases hc : (80 : Int) ≤ d.confidence <;> simp [hap, hc, ge_iff_le] <;> omega
    | false =>
      have hna := (tradeApproved_false_iff d).mp htb
      simp [hna]
  · cases htb : tradeApproved d with
    | true =>
      have hap := tradeApproved_iff d |>.mp htb
      by_cases hc : (80 : Int) ≤ d.confidence <;> simp [hap, hc, ge_iff_le]
    | false =>
      have hna := (tradeApproved_false_iff d).mp htb
      simp [hna]

/-- C6: the alternatives list of a trade trace has exactly the two
documented entries when approved (rejecting the trade, and waiting for more
confirmations while citing the confidence and stage count), and exactly one
entry otherwise, whose rejection reason names the failed stages when at
least one stage failed and otherwise cites the scam flag. -/
theorem tradeTrace_alternatives (d : TradeDecision) (now : Int) (nowISO : String) :
    (approvedClaim d →
      (createTradeReasoningTrace d now nowISO).analysis.alternativesConsidered =
        [{ action := "Reject trade"
           reasonRejected := "All prediction stages passed and scam check is clean" },
         { action := "Wait for more confirmations"
           reasonRejected := "Confidence at " ++ toString d.confidence ++ "%, all " ++
             toString d.predictionStages.length ++ " stages confirmed" }]) ∧
    (¬ approvedClaim d → (∃ s ∈ d.predictionStages, s.passed = false) →
      (createTradeReasoningTrace d now nowISO).analysis.alternativesConsidered =
        [{ action := "Execute " ++ d.action.str ++ " anyway"
           reasonRejected :=
             toString (d.predictionStages.filter (fun s => !s.passed)).length ++
             " prediction stage(s) failed: " ++
             String.intercalate ", "
               ((d.predictionStages.filter (fun s => !s.passed)).map (fun s => s.name)) }]) ∧
    (¬ approvedClaim d → (∀ s ∈ d.predictionStages, s.passed = true) →
      (createTradeReasoningTrace d now nowISO).analysis.alternativesConsidered =
        [{ action := "Execute " ++ d.action.str ++ " anyway"
           reasonRejected := "Scam check flagged this token" }]) ∧
    (approvedClaim d →
      (createTradeReasoningTrace d now nowISO).analysis.alternativesConsidered.length = 2) ∧
    (¬ approvedClaim d →
      (createTradeReasoningTrace d now nowISO).analysis.alternativesConsidered.length = 1) := by
  have hproj : (createTradeReasoningTrace d now nowISO).analysis.alternativesConsidered
      = if tradeApproved d then
          [{ action := "Reject trade"
             reasonRejected := "All prediction stages passed and scam check is clean" },
           { action := "Wait for more confirmations"
             reasonRejected := "Confidence at " ++ toString d.confidence ++ "%, all " ++
               toString d.predictionStages.length ++ " stages confirmed" }]
        else
          [{ action := "Execute " ++ d.action.str ++ " anyway"
             reasonRejected :=
               if (d.predictionStages.filter (fun s => !s.passed)).length > 0 then
                 toString (d.predictionStages.filter (fun s => !s.passed)).length ++
                 " prediction stage(s) failed: " ++
                 String.intercalate ", "
                   ((d.predictionStages.filter (fun s => !s.passed)).map (fun s => s.name))
               else "Scam check flagged this token" }] := rfl
  refine ⟨?_, ?_, ?_, ?_, ?_⟩
  · intro hap
    rw [hproj, if_pos ((tradeApproved_iff d).mpr hap)]
  · intro hna hfail
    rw [hproj, if_neg (by simp [(tradeApproved_false_iff d).mpr hna])]
    obtain ⟨s, hs, hsp⟩ := hfail
    have hmem : s ∈ d.predictionStages.filter (fun s => !s.passed) := by
      simp [List.mem_filter, hs, hsp]
    have hpos : 0 < (d.predictionStages.filter (fun s => !s.passed)).length :=
      List.length_pos.mpr (fun hnil => by simp [hnil] at hmem)
    rw [if_pos hpos]
  · intro hna hall
    rw [hproj, if_neg (by simp [(tradeApproved_false_iff d).mpr hna])]
    have hnil : d.predictionStages.filter (fun s => !s.passed) = [] := by
      apply List.filter_eq_nil_iff.mpr
      intro s hs
      simp [hall s hs]
    rw [hnil]
    simp
  · intro hap
    rw [hproj, if_pos ((tradeApproved_iff d).mpr hap)]
    rfl
  · intro hna
    rw [hproj, if_neg (by simp [(tradeApproved_false_iff d).mpr hna])]
    rfl

/-- C7: a firewall trace has exactly the five documented observation lines,
exactly one alternatives entry (the inverse of the approval verdict), the
fixed policy confidences 90 (allow) and 95 (deny) regardless of the input,
and risk `"low"` for allow, `"high"` for deny. -/
theorem firewallTrace_spec (p : FirewallParams) (now : Int) (nowISO : String) :
    (createFirewallTrace p now nowISO).analysis.observations.length = 5 ∧
    (createFirewallTrace p now nowISO).analysis.observations =
      ["Transaction type: " ++ p.transactionType,
       "Simulation: " ++ (if p.simulated then
                            (if p.simulationPassed then "✅ PASS" else "❌ FAIL")
                          else "⏭️ SKIPPED"),
       "Spend limit: " ++ (if p.spendLimitOk then "✅ OK" else "❌ EXCEEDED"),
       "Slippage: " ++ (if p.slippageOk then "✅ OK" else "❌ EXCEEDED"),
       "Program allowlist: " ++ (if p.programAllowed then "✅ ALLOWED" else "❌ BLOCKED")] ∧
    (createFirewallTrace p now nowISO).analysis.alternativesConsidered.length = 1 ∧
    (createFirewallTrace p now nowISO).analysis.alternativesConsidered =
      (if p.approved then
        [{ action := "Block transaction", reasonRejected := "All firewall checks passed" }]
       else
        [{ action := "Allow transaction", reasonRejected := p.reason }]) ∧
    (createFirewallTrace p now nowISO).decision.confidence = (if p.approved then 90 else 95) ∧
    (createFirewallTrace p now nowISO).decision.riskAssessment =
      (if p.approved then "low" else "high") := by
  refine ⟨rfl, rfl, ?_, rfl, rfl, rfl⟩
  show (if p.approved then
          [{ action := "Block transaction", reasonRejected := "All firewall checks passed" }]
        else
          [({ action := "Allow transaction", reasonRejected := p.reason } : AlternativeConsidered)]).length = 1
  cases p.approved <;> rfl

-- ─── C9: snapshot isolation of `getCommitments` ──────────────────────────

/-- A concrete run for the aliasing counterexample: fresh heap, one shield,
one committed trace (at `Date.now() = 5`). -/
def cexHeap0 : JSHeap := { objs := [], arrs := [] }

/-- The shield and heap after construction. -/
def cexAlloc : JSHeap × ShieldRef := newShieldRef cexHeap0 (some "audit")

/-- The heap after one commit. -/
def cexCommitted : JSHeap × Nat := commitRef cexAlloc.1 cexAlloc.2 (Json.obj []) 5

/-- The heap and snapshot reference after `getCommitments()`. -/
def cexSnap : JSHeap × Nat := getCommitmentsRef cexCommitted.1 cexAlloc.2

/-- The object reference the caller reads out of the snapshot array. -/
def cexElemRef : Nat := (readArr cexSnap.1 cexSnap.2).getD 0 0

/-- The heap after the caller assigns `timestamp = 999` to the commitment
object it reached through the snapshot. -/
def cexMutated : JSHeap :=
  writeObj cexSnap.1 cexElemRef { readObj cexSnap.1 cexElemRef with timestamp := 999 }

/-- C9, counterexample: `getCommitments()` is only a SHALLOW copy.  The
snapshot array holds references to the store's own `CommitmentResult`
objects, so a caller that mutates a field of an element reached through the
snapshot changes the store's observable history: here the committed entry's
timestamp reads 5 before the mutation and 999 after it, refuting "any
mutation performed by the caller on the returned sequence (or through it)
does not change the store's internal history". -/
theorem getCommitments_shallow_copy_cex :
    readArr cexSnap.1 cexSnap.2 = [cexElemRef] ∧
    (historyView cexSnap.1 cexAlloc.2).map (fun e => e.timestamp) = [5] ∧
    (historyView cexMutated cexAlloc.2).map (fun e => e.timestamp) = [999] := by
  refine ⟨rfl, rfl, rfl⟩

/-- C9, amended: mutating the snapshot ARRAY itself (replacing its contents
in any way) never changes the store's history — the snapshot is a fresh
array object, distinct from the internal one. -/
theorem getCommitments_array_mutation_isolated (h : JSHeap) (sh : ShieldRef)
    (href : sh.commitments < h.arrs.length) (l : List Nat) :
    historyView (writeArr (getCommitmentsRef h sh).1 (getCommitmentsRef h sh).2 l) sh =
      historyView (getCommitmentsRef h sh).1 sh := by
  have hne : h.arrs.length ≠ sh.commitments := (Nat.ne_of_lt href).symm
  unfold historyView getCommitmentsRef writeArr readArr
  simp only
  congr 1
  rw [List.getD_eq_getElem?_getD, List.getD_eq_getElem?_getD, List.getElem?_set_ne hne,
      List.getD_eq_getElem?_getD]

/-- Witness for the amended C9 theorem at a concrete heap (one allocated
array, reference 0): applying it discharges the bound hypothesis. -/
theorem getCommitments_array_mutation_isolated_witness :
    (0 < 1) ∧
    (historyView (writeArr (getCommitmentsRef { objs := [], arrs := [[]] } { agentName := "AgentShield", commitments := 0 }).1
        (getCommitmentsRef { objs := [], arrs := [[]] } { agentName := "AgentShield", commitments := 0 }).2 [7])
        { agentName := "AgentShield", commitments := 0 } =
      historyView (getCommitmentsRef { objs := [], arrs := [[]] } { agentName := "AgentShield", commitments := 0 }).1
        { agentName := "AgentShield", commitments := 0 }) :=
  ⟨by decide,
   getCommitments_array_mutation_isolated { objs := [], arrs := [[]] }
     { agentName := "AgentShield", commitments := 0 } (by decide) [7]⟩

-- ─── C2: the hash is NOT sensitive to nested leaf fields ─────────────────

/-- A minimal well-formed reasoning trace. -/
def tinyTrace : ReasoningTrace :=
  { version := "1.0.0", agent := "AgentShield", timestamp := 1
    action := { type := "trade", description := "d", transactionSignature := none }
    inputs := { dataSources := [], context := "c" }
    analysis := { observations := [], logic := "l", alternativesConsidered := [] }
    decision := { actionChosen := "buy 1", confidence := 82, riskAssessment := "low", expectedOutcome := "ok" }
    metadata := none }

/-- `tinyTrace` with a single leaf field changed: `decision.confidence`
82 → 0. -/
def tinyTraceMut : ReasoningTrace :=
  { tinyTrace with decision := { tinyTrace.decision with confidence := 0 } }

theorem canonicalize_ignores_confidence :
    canonicalize tinyTrace.toJson = canonicalize tinyTraceMut.toJson := by
  simp [canonicalize, tinyTrace, tinyTraceMut, ReasoningTrace.toJson, topKeys, keysOf, optField,
        sortKeys, insertKey, strLeB, charListLe, dedupKeys, applyReplacer, applyReplacerList,
        applyReplacerFields, lookupJ, stringify, stringifyList, stringifyFields]

/-- C2 is refuted by the code: `JSON.stringify(trace, Object.keys(trace).sort())`
passes an ARRAY replacer, which in JavaScript restricts serialization at
every nesting level to the listed (top-level) keys, so every nested field is
dropped from the canonical encoding.  Two traces differing in the leaf
field `decision.confidence` (82 vs 0) therefore hash identically, and
`verify` accepts the mutated copy against the hash committed for the
original — against the documented intent ("hash all decision data",
"mutating any single field … must return false"). -/
theorem hashTrace_ignores_nested_fields :
    tinyTrace.decision.confidence = 82 ∧
    tinyTraceMut.decision.confidence = 0 ∧
    tinyTrace ≠ tinyTraceMut ∧
    hashTrace tinyTrace.toJson = hashTrace tinyTraceMut.toJson ∧
    (((SolprismShield.make none).commit tinyTrace.toJson 1).2).verify
      (((SolprismShield.make none).commit tinyTrace.toJson 1).1).hash
      tinyTraceMut.toJson = true := by
  have hcanon := canonicalize_ignores_confidence
  have hhash : hashTrace tinyTrace.toJson = hashTrace tinyTraceMut.toJson :=
    congrArg sha256hex hcanon
  refine ⟨rfl, rfl, by decide, hhash, ?_⟩
  show (hashTrace tinyTraceMut.toJson == hashTrace tinyTrace.toJson) = true
  rw [← hhash]
  exact beq_self_eq_true _

-- ─── C3: order-independence of the canonical encoding ────────────────────

mutual
/-- Two JavaScript values with identical field values (recursively) that may
differ in object key *insertion order* at any depth: equal scalars, arrays
pointwise equivalent in order, objects with duplicate-free keys, equal field
counts, and each field of the left object present in the right one with an
equivalent value. -/
def equivPermB (j1 j2 : Json) : Bool :=
  match j1, j2 with
  | .str a, .str b => a == b
  | .num a, .num b => a == b
  | .bool a, .bool b => a == b
  | .arr as, .arr bs => listEquivB as bs
  | .obj fs, .obj gs =>
    nodupB (keysOf fs) && nodupB (keysOf gs) && (fs.length == gs.length) && fieldsSubB fs gs
  | _, _ => false
termination_by sizeOf j1

/-- Pointwise equivalence of array element lists. -/
def listEquivB (as bs : List Json) : Bool :=
  match as, bs with
  | [], [] => true
  | a :: as', b :: bs' => equivPermB a b && listEquivB as' bs'
  | _, _ => false
termination_by sizeOf as

/-- Every field of `fs` is present in `gs` with an equivalent value. -/
def fieldsSubB (fs gs : List (String × Json)) : Bool :=
  match fs with
  | [] => true
  | (k, v) :: fs' =>
    (match lookupJ k gs with
     | some w => equivPermB v w
     | none => false) && fieldsSubB fs' gs
termination_by sizeOf fs
end

theorem memB_iff (k : String) (l : List String) : memB k l = true ↔ k ∈ l := by
  induction l with
  | nil => simp [memB]
  | cons x xs ih => simp [memB, ih]

theorem nodupB_iff (l : List String) : nodupB l = true ↔ l.Nodup := by
  induction l with
  | nil => simp [nodupB]
  | cons k ks ih =>
    simp only [nodupB, Bool.and_eq_true, Bool.not_eq_true']
    rw [ih]
    constructor
    · rintro ⟨hfalse, hnd⟩
      exact List.nodup_cons.mpr
        ⟨fun hmem => by simp [(memB_iff k ks).mpr hmem] at hfalse, hnd⟩
    · intro hcons
      rcases List.nodup_cons.mp hcons with ⟨hnm, hnd⟩
      refine ⟨?_, hnd⟩
      cases hm : memB k ks with
      | false => rfl
      | true => exact absurd ((memB_iff k ks).mp hm) hnm

theorem lookupJ_some_mem {k : String} {v : Json} :
    ∀ {fs : List (String × Json)}, lookupJ k fs = some v → (k, v) ∈ fs := by
  intro fs
  induction fs with
  | nil => intro h; simp [lookupJ] at h
  | cons p fs ih =>
    intro h
    obtain ⟨k', w⟩ := p
    simp only [lookupJ] at h
    by_cases hk : k = k'
    · simp [hk] at h
      subst hk
      subst h
      exact List.mem_cons_self _ _
    · simp [hk] at h
      exact List.mem_cons_of_mem _ (ih h)

theorem lookupJ_isSome_iff {k : String} {fs : List (String × Json)} :
    (lookupJ k fs).isSome = true ↔ k ∈ keysOf fs := by
  induction fs with
  | nil => simp [lookupJ, keysOf]
  | cons p fs ih =>
    obtain ⟨k', w⟩ := p
    by_cases hk : k = k'
    · simp [lookupJ, hk, keysOf]
    · simp [lookupJ, hk, keysOf] at ih ⊢
      exact ih

theorem fieldsSubB_iff {fs gs : List (String × Json)} :
    fieldsSubB fs gs = true ↔
      ∀ p ∈ fs, ∃ w, lookupJ p.1 gs = some w ∧ equivPermB p.2 w = true := by
  induction fs with
  | nil => simp [fieldsSubB]
  | cons p fs ih =>
    obtain ⟨k, v⟩ := p
    rw [show fieldsSubB ((k, v) :: fs) gs =
          ((match lookupJ k gs with
            | some w => equivPermB v w
            | none => false) && fieldsSubB fs gs) from by simp [fieldsSubB]]
    cases hg : lookupJ k gs with
    | none => simp [hg, ih]
    | some w => simp [hg, ih]

theorem char_toNat_inj {a b : Char} (h : a.toNat = b.toNat) : a = b :=
  Char.ext (UInt32.ext h)

theorem charListLe_total : ∀ a b : List Char, charListLe a b = true ∨ charListLe b a = true := by
  intro a
  induction a with
  | nil => intro b; left; simp [charListLe]
  | cons x xs ih =>
    intro b
    cases b with
    | nil => right; simp [charListLe]
    | cons y ys =>
      by_cases h1 : x.toNat < y.toNat
      · left; simp [charListLe, h1]
      · by_cases h2 : y.toNat < x.toNat
        · right; simp [charListLe, h2]
        · have hx : ¬ x.toNat < y.toNat := h1
          rcases ih ys with hle | hle
          · left; simp [charListLe, h1, h2, hle]
          · right; simp [charListLe, h1, h2, hle]

theorem charListLe_antisymm : ∀ a b : List Char,
    charListLe a b = true → charListLe b a = true → a = b := by
  intro a
  induction a with
  | nil =>
    intro b _ hba
    cases b with
    | nil => rfl
    | cons y ys => simp [charListLe] at hba
  | cons x xs ih =>
    intro b hab hba
    cases b with
    | nil => simp [charListLe] at hab
    | cons y ys =>
      by_cases h1 : x.toNat < y.toNat
      · exfalso
        have : ¬ y.toNat < x.toNat := by omega
        simp [charListLe, this, h1] at hba
      · by_cases h2 : y.toNat < x.toNat
        · exfalso
          simp [charListLe, h1, h2] at hab
        · have hxy : x = y := char_toNat_inj (by omega)
          subst hxy
          simp [charListLe, h1, h2] at hab hba
          rw [ih ys hab hba]

theorem charListLe_trans : ∀ a b c : List Char,
    charListLe a b = true → charListLe b c = true → charListLe a c = true := by
  intro a
  induction a with
  | nil => intro b c _ _; simp [charListLe]
  | cons x xs ih =>
    intro b c hab hbc
    cases b with
    | nil => simp [charListLe] at hab
    | cons y ys =>
      cases c with
      | nil => simp [charListLe] at hbc
      | cons z zs =>
        simp only [charListLe] at hab hbc ⊢
        by_cases hxy : x.toNat < y.toNat
        · by_cases hyz : y.toNat < z.toNat
          · simp [show x.toNat < z.toNat from by omega]
          · by_cases hzy : z.toNat < y.toNat
            · simp [hyz, hzy] at hbc
            · simp [show x.toNat < z.toNat from by omega]
        · by_cases hyx : y.toNat < x.toNat
          · simp [hxy, hyx] at hab
          · by_cases hyz : y.toNat < z.toNat
            · simp [show x.toNat < z.toNat from by omega]
            · by_cases hzy : z.toNat < y.toNat
              · simp [hyz, hzy] at hbc
              · simp [hxy, hyx] at hab
                simp [hyz, hzy] at hbc
                simp [show ¬ x.toNat < z.toNat from by omega,
                      show ¬ z.toNat < x.toNat from by omega]
                exact ih ys zs hab hbc

theorem strLeB_total (a b : String) : strLeB a b = true ∨ strLeB b a = true :=
  charListLe_total a.data b.data

theorem strLeB_antisymm {a b : String} (h1 : strLeB a b = true) (h2 : strLeB b a = true) :
    a = b := by
  have hd := charListLe_antisymm a.data b.data h1 h2
  cases a
  cases b
  exact congrArg String.mk hd

theorem strLeB_trans {a b c : String} (h1 : strLeB a b = true) (h2 : strLeB b c = true) :
    strLeB a c = true :=
  charListLe_trans a.data b.data c.data h1 h2

theorem mem_insertKey {y k : String} : ∀ {l : List String}, y ∈ insertKey k l ↔ y = k ∨ y ∈ l := by
  intro l
  induction l with
  | nil => simp [insertKey]
  | cons x xs ih =>
    by_cases hk : strLeB k x
    · simp [insertKey, hk]
      try tauto
    · simp [insertKey, hk, ih]
      try tauto

theorem insertKey_perm (k : String) (l : List String) : (insertKey k l).Perm (k :: l) := by
  induction l with
  | nil => simp [insertKey]
  | cons x xs ih =>
    by_cases hk : strLeB k x
    · simp [insertKey, hk]
    · simp only [insertKey, hk, if_neg, Bool.false_eq_true, not_false_iff]
      exact List.Perm.trans (List.Perm.cons x ih) (List.Perm.swap k x xs)

theorem insertKey_sorted {k : String} :
    ∀ {l : List String}, List.Sorted (fun a b => strLeB a b = true) l →
      List.Sorted (fun a b => strLeB a b = true) (insertKey k l) := by
  intro l
  induction l with
  | nil => intro _; simp [insertKey]
  | cons x xs ih =>
    intro hs
    rcases List.sorted_cons.mp hs with ⟨hx, hxs⟩
    by_cases hk : strLeB k x
    · simp only [insertKey, hk, if_pos]
      refine List.sorted_cons.mpr ⟨?_, hs⟩
      intro y hy
      rcases List.mem_cons.mp hy with hy | hy
      · subst hy; exact hk
      · exact strLeB_trans hk (hx y hy)
    · simp only [insertKey, hk, if_neg, Bool.false_eq_true, not_false_iff]
      refine List.sorted_cons.mpr ⟨?_, ih hxs⟩
      intro y hy
      rcases mem_insertKey.mp hy with hy | hy
      · subst hy
        rcases strLeB_total y x with htot | htot
        · exact absurd htot hk
        · exact htot
      · exact hx y hy

theorem sortKeys_perm (l : List String) : (sortKeys l).Perm l := by
  induction l with
  | nil => simp [sortKeys]
  | cons k ks ih =>
    exact List.Perm.trans (insertKey_perm k (sortKeys ks)) (List.Perm.cons k ih)

theorem sortKeys_sorted (l : List String) :
    List.Sorted (fun a b => strLeB a b = true) (sortKeys l) := by
  induction l with
  | nil => simp [sortKeys]
  | cons k ks ih => exact insertKey_sorted ih

theorem sortKeys_eq_of_perm {l1 l2 : List String} (h : l1.Perm l2) :
    sortKeys l1 = sortKeys l2 := by
  haveI : IsAntisymm String (fun a b => strLeB a b = true) :=
    ⟨fun _ _ h1 h2 => strLeB_antisymm h1 h2⟩
  exact List.eq_of_perm_of_sorted (((sortKeys_perm l1).trans h).trans (sortKeys_perm l2).symm)
    (sortKeys_sorted l1) (sortKeys_sorted l2)

theorem equiv_obj_keys_perm {f g : List (String × Json)}
    (hnf : nodupB (keysOf f) = true)
    (hlen : f.length = g.length) (hsub : fieldsSubB f g = true) :
    (keysOf f).Perm (keysOf g) := by
  have hsubset : keysOf f ⊆ keysOf g := by
    intro k hk
    rcases List.mem_map.mp hk with ⟨p, hp, hpk⟩
    rcases fieldsSubB_iff.mp hsub p hp with ⟨w, hw, _⟩
    rw [hpk] at hw
    exact lookupJ_isSome_iff.mp (by simp [hw])
  have hsp := List.subperm_of_subset ((nodupB_iff _).mp hnf) hsubset
  refine hsp.perm_of_length_le ?_
  simp [keysOf, hlen]

theorem applyReplacerFields_nil (K : List String) (fs : List (String × Json)) :
    applyReplacerFields K [] fs = [] := by
  simp [applyReplacerFields]

theorem applyReplacerFields_cons_some {K : List String} {k : String} {ks : List String}
    {fs : List (String × Json)} {v : Json} (hf : lookupJ k fs = some v) :
    applyReplacerFields K (k :: ks) fs =
      (k, applyReplacer K v) :: applyReplacerFields K ks fs := by
  simp only [applyReplacerFields]
  split
  · rename_i w hw
    rw [hf] at hw
    injection hw with hw
    rw [hw]
  · rename_i hnone
    rw [hf] at hnone
    cases hnone

theorem applyReplacerFields_cons_none {K : List String} {k : String} {ks : List String}
    {fs : List (String × Json)} (hf : lookupJ k fs = none) :
    applyReplacerFields K (k :: ks) fs = applyReplacerFields K ks fs := by
  simp only [applyReplacerFields]
  split
  · rename_i w hw
    rw [hf] at hw
    cases hw
  · rfl

theorem applyReplacerFields_congr (K : List String) {f g : List (String × Json)}
    (hrel : ∀ k, (lookupJ k f).map (applyReplacer K) = (lookupJ k g).map (applyReplacer K)) :
    ∀ ks, applyReplacerFields K ks f = applyReplacerFields K ks g := by
  intro ks
  induction ks with
  | nil => rw [applyReplacerFields_nil, applyReplacerFields_nil]
  | cons k ks ih =>
    have h := hrel k
    cases hf : lookupJ k f with
    | none =>
      cases hg : lookupJ k g with
      | none => rw [applyReplacerFields_cons_none hf, applyReplacerFields_cons_none hg, ih]
      | some w => rw [hf, hg] at h; simp at h
    | some v =>
      cases hg : lookupJ k g with
      | none => rw [hf, hg] at h; simp at h
      | some w =>
        rw [hf, hg] at h
        simp at h
        rw [applyReplacerFields_cons_some hf, applyReplacerFields_cons_some hg, ih, h]

theorem applyReplacerList_congr (K : List String) :
    ∀ (as bs : List Json),
      (∀ x ∈ as, ∀ y, equivPermB x y = true → applyReplacer K x = applyReplacer K y) →
      listEquivB as bs = true → applyReplacerList K as = applyReplacerList K bs := by
  intro as
  induction as with
  | nil =>
    intro bs _ h
    cases bs with
    | nil => rfl
    | cons b bs => simp [listEquivB] at h
  | cons a as ih =>
    intro bs hIH h
    cases bs with
    | nil => simp [listEquivB] at h
    | cons b bs =>
      simp only [listEquivB, Bool.and_eq_true] at h
      simp only [applyReplacerList]
      rw [hIH a (List.mem_cons_self _ _) b h.1,
          ih bs (fun x hx => hIH x (List.mem_cons_of_mem _ hx)) h.2]

theorem applyReplacer_congr :
    ∀ n : Nat, ∀ j1 j2 : Json, sizeOf j1 ≤ n → equivPermB j1 j2 = true →
      ∀ K, applyReplacer K j1 = applyReplacer K j2 := by
  intro n
  induction n using Nat.strong_induction_on with
  | _ n IH =>
    intro j1 j2 hsz heq K
    cases j1 with
    | str a =>
      cases j2 <;> simp [equivPermB] at heq
      subst heq; rfl
    | num a =>
      cases j2 <;> simp [equivPermB] at heq
      subst heq; rfl
    | bool a =>
      cases j2 <;> simp [equivPermB] at heq
      subst heq; rfl
    | arr as =>
      cases j2 with
      | arr bs =>
        simp only [equivPermB] at heq
        simp only [applyReplacer]
        have hIHel : ∀ x ∈ as, ∀ y, equivPermB x y = true →
            applyReplacer K x = applyReplacer K y := by
          intro x hx y hxy
          have h1 : sizeOf x < sizeOf as := List.sizeOf_lt_of_mem hx
          have h2 : sizeOf (Json.arr as) = 1 + sizeOf as := by simp
          exact IH (sizeOf x) (by omega) x y (Nat.le_refl _) hxy K
        rw [applyReplacerList_congr K as bs hIHel heq]
      | str b => simp [equivPermB] at heq
      | num b => simp [equivPermB] at heq
      | bool b => simp [equivPermB] at heq
      | obj gs => simp [equivPermB] at heq
    | obj fs =>
      cases j2 with
      | obj gs =>
        simp only [equivPermB, Bool.and_eq_true, beq_iff_eq] at heq
        obtain ⟨⟨⟨hnf, hng⟩, hlen⟩, hsub⟩ := heq
        have hperm := equiv_obj_keys_perm hnf hlen hsub
        have hrel : ∀ k, (lookupJ k fs).map (applyReplacer K) =
            (lookupJ k gs).map (applyReplacer K) := by
          intro k
          cases hf : lookupJ k fs with
          | some v =>
            have hm := lookupJ_some_mem hf
            rcases fieldsSubB_iff.mp hsub (k, v) hm with ⟨w, hw, hvw⟩
            have h1 : sizeOf (k, v) < sizeOf fs := List.sizeOf_lt_of_mem hm
            have h2 : sizeOf v < sizeOf (k, v) := by simp
            have h3 : sizeOf (Json.obj fs) = 1 + sizeOf fs := by simp
            have hvweq : applyReplacer K v = applyReplacer K w :=
              IH (sizeOf v) (by omega) v w (Nat.le_refl _) hvw K
            rw [hw]
            simp [hvweq]
          | none =>
            cases hg : lookupJ k gs with
            | none => rfl
            | some w =>
              exfalso
              have hkg : k ∈ keysOf gs := lookupJ_isSome_iff.mp (by simp [hg])
              have hkf : k ∈ keysOf fs := hperm.mem_iff.mpr hkg
              have := lookupJ_isSome_iff.mpr hkf
              rw [hf] at this
              simp at this
        simp only [applyReplacer]
        rw [applyReplacerFields_congr K hrel (dedupKeys K)]
      | str b => simp [equivPermB] at heq
      | num b => simp [equivPermB] at heq
      | bool b => simp [equivPermB] at heq
      | arr bs => simp [equivPermB] at heq

/-- C3: order-independence of canonicalization.  Two JavaScript objects with
identical field values (recursively) but arbitrary key insertion order — at
the top level and at any nesting depth — hash identically under `hashTrace`:
the top-level keys are sorted before serialization, and the array replacer
makes nested serialization a function of key lookups only, not of stored
field order. -/
theorem hashTrace_insertion_order_independent (f g : List (String × Json))
    (heq : equivPermB (Json.obj f) (Json.obj g) = true) :
    hashTrace (Json.obj f) = hashTrace (Json.obj g) := by
  have hc := heq
  simp only [equivPermB, Bool.and_eq_true, beq_iff_eq] at hc
  obtain ⟨⟨⟨hnf, hng⟩, hlen⟩, hsub⟩ := hc
  have hperm := equiv_obj_keys_perm hnf hlen hsub
  have hK : sortKeys (topKeys (Json.obj f)) = sortKeys (topKeys (Json.obj g)) := by
    simp only [topKeys]
    exact sortKeys_eq_of_perm hperm
  unfold hashTrace canonicalize
  rw [hK, applyReplacer_congr (sizeOf (Json.obj f)) (Json.obj f) (Json.obj g)
        (Nat.le_refl _) heq _]

/-- A trace-shaped object, one insertion order. -/
def orderedFieldsA : List (String × Json) :=
  [("version", .str "1.0.0"), ("agent", .str "AgentShield"), ("timestamp", .num 1),
   ("action", .obj [("type", .str "trade"), ("description", .str "d")]),
   ("metadata", .obj [("custom", .obj [("approved", .bool true), ("totalStages", .num 3)])])]

/-- The same field values with different key insertion order at the top
level, inside `action`, and inside `metadata.custom`. -/
def orderedFieldsB : List (String × Json) :=
  [("metadata", .obj [("custom", .obj [("totalStages", .num 3), ("approved", .bool true)])]),
   ("action", .obj [("description", .str "d"), ("type", .str "trade")]),
   ("timestamp", .num 1), ("agent", .str "AgentShield"), ("version", .str "1.0.0")]

/-- Witness for C3 at a concrete pair of reordered traces. -/
theorem hashTrace_order_independent_witness :
    equivPermB (Json.obj orderedFieldsA) (Json.obj orderedFieldsB) = true ∧
    hashTrace (Json.obj orderedFieldsA) = hashTrace (Json.obj orderedFieldsB) := by
  have hequiv : equivPermB (Json.obj orderedFieldsA) (Json.obj orderedFieldsB) = true := by
    simp [orderedFieldsA, orderedFieldsB, equivPermB, listEquivB, fieldsSubB, lookupJ,
          nodupB, memB, keysOf]
  exact ⟨hequiv, hashTrace_insertion_order_independent orderedFieldsA orderedFieldsB hequiv⟩
